import Mathlib

/-!
# Verification of the `sched` scheduling service core

Shallow embedding of the availability-to-slot expansion engine and the
booking conflict-resolution protocol of the scheduler service
(`internal/app`: `GenerateAvailableSlots`, `CreateBookingHandler`,
`CancelBookingHandler`, `ListBookingsHandler`, `InsertAvailabilityRule`,
and the store queries `ListBookingsInRange` / `ListBookings`).

Modelling conventions:
* Instants (`time.Time` in UTC) are nonnegative numbers of seconds since
  the Unix epoch (`Nat`).  Go's `Truncate(24h)` truncates to multiples of
  a day from the zero time (year 1, midnight UTC); since both epochs are
  midnight-aligned this is `t / 86400 * 86400` on Unix seconds.
  `time.Weekday()` is Sunday = 0; the Unix epoch day (1970-01-01) was a
  Thursday, so the weekday of a day starting at `t` is `(t / 86400 + 4) % 7`.
* Rule times of day (`start_time` / `end_time`, parsed from `"HH:MM"` by
  `parseHHMM`) are minutes from midnight (`Nat`).
* Identifiers (user ids, booking ids) are `Nat`; the free-form metadata
  fields (email, title, ...) are dropped, as no studied behaviour reads
  them.
* Database effects are explicit state passing over a list of rows;
  fallible handlers return `Except`/sum results.  The `slot_length_minutes`
  column carries the CHECK constraint `> 0`; the chunking loop below
  guards on it (Go's loop would not terminate on a zero length, which the
  CHECK rules out).
-/

namespace Sched

/-- Seconds in a day. -/
def secsPerDay : Nat := 86400

/-- Go `time.Time.Truncate(24 * time.Hour)` on a Unix-seconds instant:
truncate down to the enclosing midnight UTC. -/
def truncDay (t : Nat) : Nat := t / secsPerDay * secsPerDay

/-- Go `int(t.Weekday())` (Sunday = 0) of the day containing instant `t`:
the Unix epoch day was a Thursday (= 4). -/
def weekdayOf (t : Nat) : Nat := (t / secsPerDay + 4) % 7

/-- `availability_rules` row (`internal/app/models.go`), with the
`"HH:MM"` time-of-day strings already parsed to minutes from midnight
(`parseHHMM`). -/
structure AvailabilityRule where
  id : Nat
  userId : Nat
  dayOfWeek : Nat
  startTime : Nat
  endTime : Nat
  slotLengthMins : Nat
  available : Bool
deriving DecidableEq, Repr

/-- Slot DTO (`StartUTC`/`EndUTC`, Unix seconds). -/
structure Slot where
  startUTC : Nat
  endUTC : Nat
deriving DecidableEq, Repr

/-- Booking status; the `bookings.status` text column only ever holds
`'confirmed'` or `'cancelled'`. -/
inductive Status where
  | confirmed
  | cancelled
deriving DecidableEq, Repr

/-- `bookings` row (`internal/app/models.go`), metadata fields dropped. -/
structure Booking where
  id : Nat
  userId : Nat
  startAtUTC : Nat
  endAtUTC : Nat
  status : Status
deriving DecidableEq, Repr

/-- Body of the chunking loop, recursing on the remaining trip count so
that the recursion is structural: emit `n` consecutive chunks of length
`slotLen` starting at `s`. -/
def chunkSlotsGo (slotLen : Nat) : Nat → Nat → List Slot
  | 0, _ => []
  | n + 1, s => ⟨s, s + slotLen⟩ :: chunkSlotsGo slotLen n (s + slotLen)

/-- The chunking loop of `GenerateAvailableSlots`:
`for s := utcStart; s.Add(slotLen).Equal(utcEnd) || s.Add(slotLen).Before(utcEnd); s = s.Add(slotLen)`.
Emits `[s, s+slotLen)` chunks while the chunk still fits inside
`utcEnd` (`s + slotLen ≤ utcEnd`), so it runs `(utcEnd - s) / slotLen`
times: a trailing chunk shorter than `slotLen` is dropped.  The
`0 < slotLen` guard embeds the `slot_length_minutes > 0` CHECK (the Go
loop would not terminate on a zero length).  `chunkSlots_eq` below
proves this definition satisfies the loop's recurrence. -/
def chunkSlots (s utcEnd slotLen : Nat) : List Slot :=
  if 0 < slotLen then chunkSlotsGo slotLen ((utcEnd - s) / slotLen) s else []

/-- The candidate slots one rule contributes on one day, after the two
`continue` filters of the inner loop: a chunk is kept iff its end is
after `fromUTC`, its start is before `toUTC`, and the rule is available. -/
def ruleDaySlots (r : AvailabilityRule) (day fromUTC toUTC : Nat) : List Slot :=
  (chunkSlots (day + r.startTime * 60) (day + r.endTime * 60) (r.slotLengthMins * 60)).filter
    (fun s => decide (fromUTC < s.endUTC) && decide (s.startUTC < toUTC) && r.available)

/-- One iteration of the day loop over the rule list: skip rules whose
`dayOfWeek` does not match the day's weekday, fail on a matching rule
whose end time is not strictly after its start time, otherwise append
that rule's chunks. -/
def dayRules (rules : List AvailabilityRule) (day fromUTC toUTC : Nat) :
    Except String (List Slot) :=
  match rules with
  | [] => .ok []
  | r :: rest =>
    if weekdayOf day ≠ r.dayOfWeek then
      dayRules rest day fromUTC toUTC
    else if r.endTime ≤ r.startTime then
      .error ("end_time must be after start_time for rule " ++ toString r.id)
    else
      match dayRules rest day fromUTC toUTC with
      | .error e => .error e
      | .ok tail => .ok (ruleDaySlots r day fromUTC toUTC ++ tail)

/-- Body of the outer day loop, recursing on the remaining trip count:
process `n` consecutive days starting at `day`. -/
def dayLoopGo (rules : List AvailabilityRule) (fromUTC toUTC : Nat) :
    Nat → Nat → Except String (List Slot)
  | 0, _ => .ok []
  | n + 1, day =>
    match dayRules rules day fromUTC toUTC with
    | .error e => .error e
    | .ok here =>
      match dayLoopGo rules fromUTC toUTC n (day + secsPerDay) with
      | .error e => .error e
      | .ok rest => .ok (here ++ rest)

/-- The outer day loop:
`for day := startDate; !day.After(endDate); day = day.Add(24h)` — it
visits `day, day + 86400, ...` while the visit is `≤ endDate`, i.e. runs
`(endDate - day) / 86400 + 1` times when `day ≤ endDate` and `0` times
otherwise.  `dayLoop_eq` below proves this definition satisfies the
loop's recurrence. -/
def dayLoop (rules : List AvailabilityRule) (day endDate fromUTC toUTC : Nat) :
    Except String (List Slot) :=
  dayLoopGo rules fromUTC toUTC
    (if day ≤ endDate then (endDate - day) / secsPerDay + 1 else 0) day

/-- The candidate-generation phase of `GenerateAvailableSlots` (everything
before the booked-slot subtraction), for an already-fetched rule list
(`ListAvailabilityRules` returns the subject's rules ordered by id). -/
def generateCandidates (rules : List AvailabilityRule) (fromUTC toUTC : Nat) :
    Except String (List Slot) :=
  dayLoop rules (truncDay fromUTC) (truncDay toUTC) fromUTC toUTC

/-- `ListBookingsInRange`: confirmed bookings of `uid` with
`from ≤ start_at_utc < to`. -/
def listBookingsInRange (store : List Booking) (uid fromT toT : Nat) : List Booking :=
  store.filter (fun b =>
    b.userId == uid && decide (fromT ≤ b.startAtUTC) && decide (b.startAtUTC < toT) &&
      b.status == Status.confirmed)

/-- `GenerateAvailableSlots`: empty rule list short-circuits to no slots;
otherwise expand candidates over the truncated day range, fetch confirmed
bookings over the one-hour-padded range, and drop every candidate whose
start instant equals a fetched booking's start instant. -/
def generateAvailableSlots (store : List Booking) (rules : List AvailabilityRule)
    (uid fromUTC toUTC : Nat) : Except String (List Slot) :=
  if rules.isEmpty then
    .ok []
  else
    match generateCandidates rules fromUTC toUTC with
    | .error e => .error e
    | .ok cands =>
      let booked := (listBookingsInRange store uid (fromUTC - 3600) (toUTC + 3600)).map
        (fun b => b.startAtUTC)
      .ok (cands.filter (fun s => !booked.contains s.startUTC))

/-- Outcome of `CreateBookingHandler` (the HTTP status it answers with,
for reference): `badRange` 400, `slotTaken` 409 "slot already booked",
`slotNotAvailable` 400 "slot not available", `storeError` 500 (expander
failure or the transaction's insert failing, e.g. on the
`ux_bookings_user_start_confirmed` / primary-key constraints),
`created` 201. -/
inductive CreateResult where
  | badRange
  | slotTaken
  | slotNotAvailable
  | storeError (msg : String)
  | created (b : Booking)
deriving DecidableEq, Repr

/-- `CreateBookingHandler` (`POST /users/:id/bookings`), for an attempt
with parsed instants `start`/`endT` and the fresh id `newId` the insert's
`gen_random_uuid()` would mint.  Steps, in source order: reject unless
`start < end`; inside the transaction select any confirmed booking of the
user at exactly `start` (`FOR UPDATE`) and answer conflict if found;
re-derive available slots over `[start-1s, end+1s]` and reject unless one
matches `(start, end)` exactly; insert the confirmed booking (the
primary key rejects a reused id).  Every non-created outcome leaves the
store unchanged (the deferred rollback). -/
def createBooking (rules : List AvailabilityRule) (store : List Booking)
    (uid start endT newId : Nat) : CreateResult × List Booking :=
  if ¬ start < endT then
    (.badRange, store)
  else if store.any (fun b =>
      b.userId == uid && b.status == Status.confirmed && b.startAtUTC == start) then
    (.slotTaken, store)
  else
    match generateAvailableSlots store rules uid (start - 1) (endT + 1) with
    | .error e => (.storeError e, store)
    | .ok slots =>
      if slots.any (fun s => s.startUTC == start && s.endUTC == endT) then
        if store.any (fun b => b.id == newId) then
          (.storeError "duplicate key", store)
        else
          let b : Booking := ⟨newId, uid, start, endT, Status.confirmed⟩
          (.created b, store ++ [b])
      else
        (.slotNotAvailable, store)

/-- Outcome of `CancelBookingHandler`.  `notFound` answers 404
`"booking not found"`; `alreadyCancelled` answers 409 Conflict (its body
is also the string `"booking not found"` — the two outcomes differ by
status code); `ok` answers 200. -/
inductive CancelResult where
  | notFound
  | alreadyCancelled
  | ok
deriving DecidableEq, Repr

/-- HTTP status code each cancellation outcome is answered with. -/
def CancelResult.httpStatus : CancelResult → Nat
  | .notFound => 404
  | .alreadyCancelled => 409
  | .ok => 200

/-- The row update of
`UPDATE bookings SET status='cancelled' WHERE id=$1 AND status != 'cancelled'`
applied to one row. -/
def cancelUpdate (bid : Nat) (x : Booking) : Booking :=
  if x.id == bid && !(x.status == Status.cancelled) then
    { x with status := Status.cancelled }
  else x

/-- `CancelBookingHandler` (`DELETE /bookings/:id`): select the booking's
status (404 when no row); 409 when it is already cancelled; otherwise
`UPDATE ... SET status='cancelled' WHERE id=$1 AND status != 'cancelled'`,
answering 409 as well when that update touches zero rows
(`RowsAffected() == 0`). -/
def cancelBooking (store : List Booking) (bid : Nat) : CancelResult × List Booking :=
  match store.find? (fun b => b.id == bid) with
  | none => (.notFound, store)
  | some b =>
    if b.status == Status.cancelled then
      (.alreadyCancelled, store)
    else
      let updated := store.map (cancelUpdate bid)
      if store.countP (fun x => x.id == bid && !(x.status == Status.cancelled)) == 0 then
        (.alreadyCancelled, updated)
      else
        (.ok, updated)

/-- Current `InsertAvailabilityRule` (the permissive generation:
"Insert - no uniqueness check, allow multiple rules per day", matching
`models.go` and the dropped `uniq_user_day` constraint): a plain insert
that never checks for an existing rule on the same day. -/
def insertAvailabilityRule (store : List AvailabilityRule) (r : AvailabilityRule) :
    Except String (List AvailabilityRule) :=
  .ok (store ++ [r])

/-- Insert a booking into a list sorted by `start_at_utc`, keeping it
sorted. -/
def insertByStart (b : Booking) : List Booking → List Booking
  | [] => [b]
  | x :: xs =>
    if b.startAtUTC ≤ x.startAtUTC then b :: x :: xs else x :: insertByStart b xs

/-- `ORDER BY start_at_utc` (insertion sort; SQL leaves the relative
order of equal keys unspecified, so any sort by the key is a faithful
model). -/
def sortByStart : List Booking → List Booking
  | [] => []
  | x :: xs => insertByStart x (sortByStart xs)

/-- `ListBookings` (store query behind `ListBookingsHandler`): when
`filtered`, non-cancelled bookings of `uid` with `from ≤ start < to`,
ordered by `start_at_utc`; otherwise all non-cancelled bookings of `uid`,
same order. -/
def listBookings (store : List Booking) (uid fromT toT : Nat) (filtered : Bool) :
    List Booking :=
  let rows :=
    if filtered then
      store.filter (fun b =>
        b.userId == uid && decide (fromT ≤ b.startAtUTC) && decide (b.startAtUTC < toT) &&
          !(b.status == Status.cancelled))
    else
      store.filter (fun b => b.userId == uid && !(b.status == Status.cancelled))
  sortByStart rows

/-- `ListBookingsHandler` (`GET /users/:id/bookings?from=&to=`): the
query parameters as parsed instants (`none` = parameter absent).  Only
when both are present are they parsed, validated (`from < to`) and
passed on; in every other case the parameters are never even parsed and
`ListBookings` runs unfiltered with the zero times. -/
def listBookingsHandler (store : List Booking) (uid : Nat)
    (fromQ toQ : Option Nat) : Except String (List Booking) :=
  match fromQ, toQ with
  | some f, some t =>
    if ¬ f < t then
      .error "from must be before to"
    else
      .ok (listBookings store uid f t true)
  | some _, none => .ok (listBookings store uid 0 0 false)
  | none, some _ => .ok (listBookings store uid 0 0 false)
  | none, none => .ok (listBookings store uid 0 0 false)

/-- One request against the booking store: a booking attempt (carrying
the subject's rule list as fetched at that moment, and the id the insert
would mint) or a cancellation. -/
inductive Op where
  | create (rules : List AvailabilityRule) (uid start endT newId : Nat)
  | cancel (bid : Nat)

/-- State transition of the booking store under one request. -/
def step (store : List Booking) : Op → List Booking
  | .create rules uid start endT newId => (createBooking rules store uid start endT newId).2
  | .cancel bid => (cancelBooking store bid).2

/-- The booking store reached by a sequence of requests against an
initially empty database. -/
def run (ops : List Op) : List Booking :=
  ops.foldl step []

/-- The store invariant backing `ux_bookings_user_start_confirmed`: no
two confirmed bookings of one user share a start instant. -/
def NoDoubleBook (store : List Booking) : Prop :=
  store.Pairwise (fun a b =>
    a.status = Status.confirmed → b.status = Status.confirmed →
    a.userId = b.userId → a.startAtUTC ≠ b.startAtUTC)

end Sched

namespace Sched

/-! ## Loop recurrences

The Go loops are embedded with an explicit trip count; these lemmas show
the embeddings satisfy exactly the source loops' recurrences. -/

/-- `chunkSlots` satisfies the chunking loop's recurrence: emit
`[s, s+slotLen)` and continue at `s + slotLen` while
`s.Add(slotLen).Equal(utcEnd) || s.Add(slotLen).Before(utcEnd)`. -/
theorem chunkSlots_eq (s utcEnd slotLen : Nat) :
    chunkSlots s utcEnd slotLen =
      if 0 < slotLen ∧ s + slotLen ≤ utcEnd then
        ⟨s, s + slotLen⟩ :: chunkSlots (s + slotLen) utcEnd slotLen
      else [] := by
  unfold chunkSlots
  by_cases hL : 0 < slotLen
  · rw [if_pos hL]
    by_cases hle : s + slotLen ≤ utcEnd
    · rw [if_pos ⟨hL, hle⟩]
      have h1 : (utcEnd - s) / slotLen = (utcEnd - (s + slotLen)) / slotLen + 1 := by
        rw [Nat.div_eq_sub_div hL (by omega), Nat.sub_sub]
      rw [h1, if_pos hL]
      rfl
    · have h0 : (utcEnd - s) / slotLen = 0 := Nat.div_eq_of_lt (by omega)
      rw [if_neg (by tauto), h0]
      rfl
  · rw [if_neg hL, if_neg (by tauto)]

/-- `dayLoop` satisfies the day loop's recurrence: process `day` and
continue at `day + 24h` while `!day.After(endDate)`. -/
theorem dayLoop_eq (rules : List AvailabilityRule) (day endDate fromUTC toUTC : Nat) :
    dayLoop rules day endDate fromUTC toUTC =
      if day ≤ endDate then
        match dayRules rules day fromUTC toUTC with
        | .error e => .error e
        | .ok here =>
          match dayLoop rules (day + secsPerDay) endDate fromUTC toUTC with
          | .error e => .error e
          | .ok rest => .ok (here ++ rest)
      else .ok [] := by
  unfold dayLoop
  by_cases h : day ≤ endDate
  · rw [if_pos h, if_pos h]
    have hC : (endDate - day) / secsPerDay
        = if day + secsPerDay ≤ endDate then (endDate - (day + secsPerDay)) / secsPerDay + 1 else 0 := by
      by_cases h2 : day + secsPerDay ≤ endDate
      · rw [if_pos h2, Nat.div_eq_sub_div (by norm_num [secsPerDay]) (by omega), Nat.sub_sub]
      · rw [if_neg h2, Nat.div_eq_of_lt (by simp only [secsPerDay] at *; omega)]
    rw [hC]
    rfl
  · rw [if_neg h, if_neg h]
    rfl

/-! ## Chunk membership and ordering -/

/-- Every chunk the chunking body emits starting at `a` for `n` trips has
length `L`, starts at or after `a`, and ends within `a + n * L`. -/
theorem chunkSlotsGo_mem {L : Nat} {s : Slot} :
    ∀ {n a : Nat}, s ∈ chunkSlotsGo L n a →
      s.endUTC = s.startUTC + L ∧ a ≤ s.startUTC ∧ s.endUTC ≤ a + n * L := by
  intro n
  induction n with
  | zero => intro a h; simp [chunkSlotsGo] at h
  | succ n ih =>
    intro a h
    simp only [chunkSlotsGo, List.mem_cons] at h
    rcases h with h | h
    · subst h
      refine ⟨rfl, Nat.le_refl _, ?_⟩
      simp only
      have : L ≤ (n + 1) * L := Nat.le_mul_of_pos_left L (Nat.succ_pos n)
      omega
    · obtain ⟨h1, h2, h3⟩ := ih h
      refine ⟨h1, by omega, ?_⟩
      have : a + L + n * L = a + (n + 1) * L := by ring
      omega

/-- Every chunk of `chunkSlots a e L` has length exactly `L`, starts at
or after `a`, ends at or before `e`, and witnesses `0 < L`. -/
theorem chunkSlots_mem {a e L : Nat} {s : Slot} (h : s ∈ chunkSlots a e L) :
    0 < L ∧ s.endUTC = s.startUTC + L ∧ a ≤ s.startUTC ∧ s.endUTC ≤ e := by
  unfold chunkSlots at h
  by_cases hL : 0 < L
  · rw [if_pos hL] at h
    obtain ⟨h1, h2, h3⟩ := chunkSlotsGo_mem h
    refine ⟨hL, h1, h2, ?_⟩
    have hdiv : (e - a) / L * L ≤ e - a := Nat.div_mul_le_self _ _
    omega
  · rw [if_neg hL] at h
    simp at h

/-- The chunks of one rule-day window are strictly increasing in their
start instants. -/
theorem chunkSlotsGo_pairwise {L : Nat} (hL : 0 < L) :
    ∀ (n a : Nat), (chunkSlotsGo L n a).Pairwise (fun x y => x.startUTC < y.startUTC) := by
  intro n
  induction n with
  | zero => intro a; simp [chunkSlotsGo]
  | succ n ih =>
    intro a
    simp only [chunkSlotsGo, List.pairwise_cons]
    refine ⟨?_, ih (a + L)⟩
    intro y hy
    obtain ⟨-, h2, -⟩ := chunkSlotsGo_mem hy
    show a < y.startUTC
    omega

/-- Membership in one rule's one-day contribution: exactly the chunks of
the rule's window on that day, kept iff the rule is available and the
chunk half-open-intersects `[fromUTC, toUTC)`. -/
theorem ruleDaySlots_mem {r : AvailabilityRule} {day fromUTC toUTC : Nat} {s : Slot} :
    s ∈ ruleDaySlots r day fromUTC toUTC ↔
      s ∈ chunkSlots (day + r.startTime * 60) (day + r.endTime * 60) (r.slotLengthMins * 60) ∧
        r.available = true ∧ fromUTC < s.endUTC ∧ s.startUTC < toUTC := by
  simp only [ruleDaySlots, List.mem_filter, Bool.and_eq_true, decide_eq_true_eq]
  tauto

/-! ## Day-loop membership and error propagation -/

/-- Every slot one day contributes comes from some rule of the list that
matches the day's weekday and passed the validity re-check. -/
theorem dayRules_ok_mem {rules : List AvailabilityRule} {day fromUTC toUTC : Nat}
    {l : List Slot} {s : Slot} (h : dayRules rules day fromUTC toUTC = .ok l) (hs : s ∈ l) :
    ∃ r ∈ rules, weekdayOf day = r.dayOfWeek ∧ r.startTime < r.endTime ∧
      s ∈ ruleDaySlots r day fromUTC toUTC := by
  induction rules generalizing l with
  | nil =>
    simp only [dayRules, Except.ok.injEq] at h
    subst h
    simp at hs
  | cons r rest ih =>
    simp only [dayRules] at h
    by_cases hw : weekdayOf day ≠ r.dayOfWeek
    · rw [if_pos hw] at h
      obtain ⟨r', hr', hrest⟩ := ih h hs
      exact ⟨r', List.mem_cons_of_mem _ hr', hrest⟩
    · rw [if_neg hw] at h
      by_cases hv : r.endTime ≤ r.startTime
      · rw [if_pos hv] at h
        cases h
      · rw [if_neg hv] at h
        cases htail : dayRules rest day fromUTC toUTC with
        | error e => rw [htail] at h; cases h
        | ok tail =>
          rw [htail] at h
          cases h
          rcases List.mem_append.mp hs with hmem | hmem
          · exact ⟨r, List.mem_cons_self r rest, by omega, by omega, hmem⟩
          · obtain ⟨r', hr', hrest⟩ := ih htail hmem
            exact ⟨r', List.mem_cons_of_mem _ hr', hrest⟩

/-- If some rule of the list matches the day's weekday and violates
`end_time > start_time`, processing that day fails. -/
theorem dayRules_error_of {rules : List AvailabilityRule} {day fromUTC toUTC : Nat}
    (h : ∃ r ∈ rules, weekdayOf day = r.dayOfWeek ∧ r.endTime ≤ r.startTime) :
    ∃ msg, dayRules rules day fromUTC toUTC = .error msg := by
  induction rules with
  | nil => simp at h
  | cons r rest ih =>
    rcases h with ⟨r', hr', hw', hv'⟩
    rcases List.mem_cons.mp hr' with hr' | hr'
    · subst hr'
      refine ⟨"end_time must be after start_time for rule " ++ toString r'.id, ?_⟩
      simp only [dayRules, hw', ne_eq, not_true_eq_false, if_false, if_neg, hv', if_true]
    · simp only [dayRules]
      by_cases hw : weekdayOf day ≠ r.dayOfWeek
      · rw [if_pos hw]
        exact ih ⟨r', hr', hw', hv'⟩
      · rw [if_neg hw]
        by_cases hv : r.endTime ≤ r.startTime
        · rw [if_pos hv]
          exact ⟨_, rfl⟩
        · rw [if_neg hv]
          obtain ⟨msg, hmsg⟩ := ih ⟨r', hr', hw', hv'⟩
          rw [hmsg]
          exact ⟨msg, rfl⟩

/-- Every slot the day loop emits comes from one of the visited days. -/
theorem dayLoopGo_ok_mem {rules : List AvailabilityRule} {fromUTC toUTC : Nat}
    {n day : Nat} {l : List Slot} {s : Slot}
    (h : dayLoopGo rules fromUTC toUTC n day = .ok l) (hs : s ∈ l) :
    ∃ k < n, ∃ l', dayRules rules (day + k * secsPerDay) fromUTC toUTC = .ok l' ∧ s ∈ l' := by
  induction n generalizing day l with
  | zero =>
    simp only [dayLoopGo, Except.ok.injEq] at h
    subst h
    simp at hs
  | succ n ih =>
    simp only [dayLoopGo] at h
    cases hhere : dayRules rules day fromUTC toUTC with
    | error e => rw [hhere] at h; cases h
    | ok here =>
      rw [hhere] at h
      cases hrest : dayLoopGo rules fromUTC toUTC n (day + secsPerDay) with
      | error e => rw [hrest] at h; cases h
      | ok rest =>
        rw [hrest] at h
        cases h
        rcases List.mem_append.mp hs with hmem | hmem
        · exact ⟨0, Nat.succ_pos n, here, by simpa using hhere, hmem⟩
        · obtain ⟨k, hk, l', hl', hmem'⟩ := ih hrest hmem
          refine ⟨k + 1, by omega, l', ?_, hmem'⟩
          have : day + (k + 1) * secsPerDay = day + secsPerDay + k * secsPerDay := by ring
          rw [this]
          exact hl'

/-- If one of the visited days fails, the whole day loop fails. -/
theorem dayLoopGo_error_of {rules : List AvailabilityRule} {fromUTC toUTC : Nat}
    {n day k : Nat} (hk : k < n)
    (h : ∃ msg, dayRules rules (day + k * secsPerDay) fromUTC toUTC = .error msg) :
    ∃ msg, dayLoopGo rules fromUTC toUTC n day = .error msg := by
  induction n generalizing day k with
  | zero => omega
  | succ n ih =>
    simp only [dayLoopGo]
    cases hhere : dayRules rules day fromUTC toUTC with
    | error e => exact ⟨e, rfl⟩
    | ok here =>
      cases k with
      | zero =>
        obtain ⟨msg, hmsg⟩ := h
        simp only [Nat.zero_mul, Nat.add_zero] at hmsg
        rw [hmsg] at hhere
        cases hhere
      | succ k =>
        have hk' : k < n := by omega
        have h' : ∃ msg, dayRules rules (day + secsPerDay + k * secsPerDay) fromUTC toUTC = .error msg := by
          obtain ⟨msg, hmsg⟩ := h
          refine ⟨msg, ?_⟩
          have : day + secsPerDay + k * secsPerDay = day + (k + 1) * secsPerDay := by ring
          rw [this]
          exact hmsg
        obtain ⟨msg, hmsg⟩ := ih hk' h'
        rw [hmsg]
        exact ⟨msg, rfl⟩

/-- Every candidate the expander emits is attributable to a rule whose
`dayOfWeek` matches some visited day. -/
theorem generateCandidates_ok_mem {rules : List AvailabilityRule} {fromUTC toUTC : Nat}
    {cands : List Slot} {s : Slot}
    (h : generateCandidates rules fromUTC toUTC = .ok cands) (hs : s ∈ cands) :
    ∃ r ∈ rules, ∃ day, weekdayOf day = r.dayOfWeek ∧ r.startTime < r.endTime ∧
      s ∈ ruleDaySlots r day fromUTC toUTC := by
  obtain ⟨k, -, l', hl', hmem⟩ := dayLoopGo_ok_mem h hs
  obtain ⟨r, hr, hw, hv, hmem'⟩ := dayRules_ok_mem hl' hmem
  exact ⟨r, hr, truncDay fromUTC + k * secsPerDay, hw, hv, hmem'⟩

/-! ## Claim theorems -/

/-- C4: every slot the expander emits is attributable to a rule matching
the emitting day's weekday, has length exactly that rule's
`slotLengthMinutes`, and ends at or before the rule's window end on that
day; and the 09:00–09:50 / 30-minute example emits exactly the single
slot 09:00–09:30 (on Monday 1970-01-05, instants in Unix seconds). -/
theorem thm_C4 :
    (∀ (rules : List AvailabilityRule) (fromUTC toUTC : Nat) (cands : List Slot) (s : Slot),
        generateCandidates rules fromUTC toUTC = .ok cands → s ∈ cands →
        ∃ r ∈ rules, ∃ day, weekdayOf day = r.dayOfWeek ∧
          s.endUTC = s.startUTC + r.slotLengthMins * 60 ∧ s.endUTC ≤ day + r.endTime * 60) ∧
    generateCandidates [⟨1, 7, 1, 540, 590, 30, true⟩] 378000 381000 =
      .ok [⟨378000, 379800⟩] := by
  constructor
  · intro rules f t cands s h hs
    obtain ⟨r, hr, day, hw, -, hmem⟩ := generateCandidates_ok_mem h hs
    rw [ruleDaySlots_mem] at hmem
    obtain ⟨hL, hlen, -, hhi⟩ := chunkSlots_mem hmem.1
    exact ⟨r, hr, day, hw, hlen, hhi⟩
  · rfl

/-- Witness for C4's universal part: the slot 09:00–09:30 of the Monday
09:00–10:00 / 30-minute rule, over the 09:00–10:00 query range. -/
theorem w_C4 :
    ∃ r ∈ [(⟨1, 7, 1, 540, 600, 30, true⟩ : AvailabilityRule)], ∃ day,
      weekdayOf day = r.dayOfWeek ∧ (379800 : Nat) = 378000 + r.slotLengthMins * 60 ∧
        (379800 : Nat) ≤ day + r.endTime * 60 := by
  have h := thm_C4.1 [⟨1, 7, 1, 540, 600, 30, true⟩] 378000 381600
    [⟨378000, 379800⟩, ⟨379800, 381600⟩] ⟨378000, 379800⟩ rfl (by decide)
  simpa using h

/-- C6: a candidate chunk is kept exactly when its end is after `from`
and its start is before `to` (half-open intersection); in particular a
chunk whose start equals `to` is excluded, and a chunk whose start
equals `from` is included. -/
theorem thm_C6 :
    (∀ (r : AvailabilityRule) (day fromUTC toUTC : Nat) (s : Slot),
        s ∈ ruleDaySlots r day fromUTC toUTC ↔
          s ∈ chunkSlots (day + r.startTime * 60) (day + r.endTime * 60) (r.slotLengthMins * 60) ∧
            r.available = true ∧ fromUTC < s.endUTC ∧ s.startUTC < toUTC) ∧
    (∀ (r : AvailabilityRule) (day fromUTC : Nat) (s : Slot),
        s ∉ ruleDaySlots r day fromUTC s.startUTC) ∧
    (∀ (r : AvailabilityRule) (day toUTC : Nat) (s : Slot),
        s ∈ chunkSlots (day + r.startTime * 60) (day + r.endTime * 60) (r.slotLengthMins * 60) →
        r.available = true → s.startUTC < toUTC →
        s ∈ ruleDaySlots r day s.startUTC toUTC) := by
  refine ⟨fun r day f t s => ruleDaySlots_mem, ?_, ?_⟩
  · intro r day f s hmem
    rw [ruleDaySlots_mem] at hmem
    exact absurd hmem.2.2.2 (lt_irrefl _)
  · intro r day t s hchunk hav hlt
    obtain ⟨hL, hlen, -, -⟩ := chunkSlots_mem hchunk
    exact ruleDaySlots_mem.mpr ⟨hchunk, hav, by omega, hlt⟩

/-- Witness for C6: the 09:00–09:30 Monday chunk is excluded when the
query range ends at 09:00 exactly, and included when the query range
starts at 09:00 exactly. -/
theorem w_C6 :
    (⟨378000, 379800⟩ : Slot) ∉ ruleDaySlots ⟨1, 7, 1, 540, 600, 30, true⟩ 345600 345600 378000 ∧
    (⟨378000, 379800⟩ : Slot) ∈ ruleDaySlots ⟨1, 7, 1, 540, 600, 30, true⟩ 345600 378000 381600 := by
  constructor
  · exact thm_C6.2.1 ⟨1, 7, 1, 540, 600, 30, true⟩ 345600 345600 ⟨378000, 379800⟩
  · exact thm_C6.2.2 ⟨1, 7, 1, 540, 600, 30, true⟩ 345600 381600 ⟨378000, 379800⟩
      (by decide) rfl (by decide)

/-- C7: if some visited day of the query range (the `k`-th day of the
truncated range) matches a rule whose end time is not strictly after its
start time, candidate expansion — and with it the whole free-slot
query — fails with the invalid-rule error; no slots are returned and the
rule is not skipped. -/
theorem thm_C7 (rules : List AvailabilityRule) (store : List Booking)
    (uid fromUTC toUTC k : Nat)
    (hday : truncDay fromUTC + k * secsPerDay ≤ truncDay toUTC)
    (hr : ∃ r ∈ rules, weekdayOf (truncDay fromUTC + k * secsPerDay) = r.dayOfWeek ∧
      r.endTime ≤ r.startTime) :
    (∃ msg, generateCandidates rules fromUTC toUTC = .error msg) ∧
    (∃ msg, generateAvailableSlots store rules uid fromUTC toUTC = .error msg) := by
  have herr := @dayRules_error_of rules (truncDay fromUTC + k * secsPerDay) fromUTC toUTC hr
  have hle : truncDay fromUTC ≤ truncDay toUTC := by
    have : 0 ≤ k * secsPerDay := Nat.zero_le _
    omega
  have hk : k < (truncDay toUTC - truncDay fromUTC) / secsPerDay + 1 := by
    have hmul : k * secsPerDay ≤ truncDay toUTC - truncDay fromUTC := by omega
    have := (Nat.le_div_iff_mul_le (k := secsPerDay) (by norm_num [secsPerDay])).mpr hmul
    omega
  have hloop := @dayLoopGo_error_of rules fromUTC toUTC
    ((truncDay toUTC - truncDay fromUTC) / secsPerDay + 1) (truncDay fromUTC) k hk herr
  have hcand : ∃ msg, generateCandidates rules fromUTC toUTC = .error msg := by
    unfold generateCandidates dayLoop
    rw [if_pos hle]
    exact hloop
  refine ⟨hcand, ?_⟩
  obtain ⟨msg, hmsg⟩ := hcand
  have hne : rules.isEmpty = false := by
    obtain ⟨r, hrmem, -⟩ := hr
    cases rules with
    | nil => simp at hrmem
    | cons a l => rfl
  refine ⟨msg, ?_⟩
  unfold generateAvailableSlots
  rw [hne, hmsg]
  rfl

/-- The chunks of one rule-day window are strictly increasing in their
start instants. -/
theorem chunkSlots_pairwise (a e L : Nat) :
    (chunkSlots a e L).Pairwise (fun x y => x.startUTC < y.startUTC) := by
  unfold chunkSlots
  by_cases hL : 0 < L
  · rw [if_pos hL]
    exact chunkSlotsGo_pairwise hL _ _
  · rw [if_neg hL]
    exact List.Pairwise.nil

/-- C5 counterexample: the claim "the expander's output is sorted by
`startAt` ascending" is false.  Two Monday rules, stored with the
10:00–10:30 rule before the 09:00–09:30 rule (rule ids 1 and 2 —
`ListAvailabilityRules` orders by id), expand over a Monday range to the
slot list `[10:00, 09:00]`, which is not sorted by start instant. -/
theorem cex_C5 :
    generateCandidates
        [⟨1, 7, 1, 600, 630, 30, true⟩, ⟨2, 7, 1, 540, 570, 30, true⟩] 378000 383400 =
      .ok [⟨381600, 383400⟩, ⟨378000, 379800⟩] ∧
    ¬ ([⟨381600, 383400⟩, ⟨378000, 379800⟩] : List Slot).Pairwise
        (fun a b => a.startUTC ≤ b.startUTC) :=
  ⟨rfl, by decide⟩

/-- C5 (amended): within one rule on one visited day the emitted slots
are strictly ascending by `startAt`; identical rules both contribute, so
tied candidates are retained as duplicates (here two identical Monday
09:00–10:00 rules yield each half-hour slot twice); but across distinct
rules the output follows the stored rule (id) order, not global
`startAt` order — `cex_C5` exhibits an unsorted output. -/
theorem thm_C5 :
    (∀ (r : AvailabilityRule) (day fromUTC toUTC : Nat),
        (ruleDaySlots r day fromUTC toUTC).Pairwise (fun x y => x.startUTC < y.startUTC)) ∧
    generateCandidates
        [⟨1, 7, 1, 540, 600, 30, true⟩, ⟨2, 7, 1, 540, 600, 30, true⟩] 378000 381600 =
      .ok [⟨378000, 379800⟩, ⟨379800, 381600⟩, ⟨378000, 379800⟩, ⟨379800, 381600⟩] := by
  refine ⟨fun r day f t => ?_, rfl⟩
  exact (chunkSlots_pairwise _ _ _).filter _

/-- The empty rule list expands to no candidates (`dayRules` body). -/
theorem dayLoopGo_nil (fromUTC toUTC : Nat) :
    ∀ (n day : Nat), dayLoopGo [] fromUTC toUTC n day = .ok [] := by
  intro n
  induction n with
  | zero => intro day; rfl
  | succ n ih =>
    intro day
    simp only [dayLoopGo, dayRules, ih, List.nil_append]

/-- When candidate expansion succeeds, `GenerateAvailableSlots` returns
exactly the candidates whose start instant does not equal the start
instant of any confirmed booking fetched over the one-hour-padded
range. -/
theorem genAvail_eq_of_ok {store : List Booking} {rules : List AvailabilityRule}
    {uid fromUTC toUTC : Nat} {cands : List Slot}
    (h : generateCandidates rules fromUTC toUTC = .ok cands) :
    generateAvailableSlots store rules uid fromUTC toUTC =
      .ok (cands.filter (fun s =>
        !(((listBookingsInRange store uid (fromUTC - 3600) (toUTC + 3600)).map
          (fun b => b.startAtUTC)).contains s.startUTC))) := by
  cases rules with
  | nil =>
    unfold generateCandidates dayLoop at h
    rw [dayLoopGo_nil] at h
    injection h with h
    subst h
    rfl
  | cons a l =>
    unfold generateAvailableSlots
    rw [h]
    rfl

/-- Membership in the fetched booking window. -/
theorem mem_listBookingsInRange {store : List Booking} {uid fromT toT : Nat} {b : Booking} :
    b ∈ listBookingsInRange store uid fromT toT ↔
      b ∈ store ∧ b.userId = uid ∧ fromT ≤ b.startAtUTC ∧ b.startAtUTC < toT ∧
        b.status = Status.confirmed := by
  simp only [listBookingsInRange, List.mem_filter, Bool.and_eq_true, decide_eq_true_eq,
    beq_iff_eq]
  tauto

/-- C3: free-slot queries subtract bookings from the re-expanded
candidates by exact `startAt` equality against the confirmed bookings
fetched over the one-hour-padded range — never by interval overlap; and
in the end-to-end scenario (Monday 09:00–10:00 rule, 30-minute slots,
09:00–09:30 booked) the query over 09:00–10:00 returns only the
09:30–10:00 slot. -/
theorem thm_C3 :
    (∀ (store : List Booking) (rules : List AvailabilityRule) (uid fromUTC toUTC : Nat)
        (cands : List Slot),
        generateCandidates rules fromUTC toUTC = .ok cands →
        generateAvailableSlots store rules uid fromUTC toUTC =
          .ok (cands.filter (fun s =>
            !(((listBookingsInRange store uid (fromUTC - 3600) (toUTC + 3600)).map
              (fun b => b.startAtUTC)).contains s.startUTC)))) ∧
    generateAvailableSlots [⟨100, 7, 378000, 379800, Status.confirmed⟩]
        [⟨1, 7, 1, 540, 600, 30, true⟩] 7 378000 381600 = .ok [⟨379800, 381600⟩] :=
  ⟨fun _ _ _ _ _ _ h => genAvail_eq_of_ok h, rfl⟩

/-- Witness for C3's universal part: the Monday scenario with an empty
booking store returns both candidate slots. -/
theorem w_C3 :
    generateAvailableSlots [] [⟨1, 7, 1, 540, 600, 30, true⟩] 7 378000 381600 =
      .ok (([⟨378000, 379800⟩, ⟨379800, 381600⟩] : List Slot).filter (fun s =>
        !(((listBookingsInRange [] 7 (378000 - 3600) (381600 + 3600)).map
          (fun b => b.startAtUTC)).contains s.startUTC))) :=
  thm_C3.1 [] [⟨1, 7, 1, 540, 600, 30, true⟩] 7 378000 381600
    [⟨378000, 379800⟩, ⟨379800, 381600⟩] rfl

/-- Witness for C7: a Monday rule with `endTime = startTime = 10:00`
makes both the expansion and the free-slot query over a Monday range
fail. -/
theorem w_C7 :
    (∃ msg, generateCandidates [⟨3, 7, 1, 600, 600, 30, true⟩] 378000 381600 = .error msg) ∧
    (∃ msg, generateAvailableSlots [] [⟨3, 7, 1, 600, 600, 30, true⟩] 7 378000 381600 =
      .error msg) :=
  thm_C7 [⟨3, 7, 1, 600, 600, 30, true⟩] [] 7 378000 381600 0 (by decide) (by decide)

/-! ## Booking conflict resolution -/

/-- A well-formed attempt at an instant already held by a confirmed
booking of the same user answers the conflict (`FOR UPDATE` row found)
and, with the transaction rolled back, leaves the store unchanged. -/
theorem createBooking_slotTaken {rules : List AvailabilityRule} {store : List Booking}
    {uid start endT newId : Nat} (hlt : start < endT)
    (hex : ∃ b ∈ store, b.userId = uid ∧ b.status = Status.confirmed ∧ b.startAtUTC = start) :
    createBooking rules store uid start endT newId = (.slotTaken, store) := by
  unfold createBooking
  rw [if_neg (not_not_intro hlt)]
  have h2 : store.any (fun b =>
      b.userId == uid && b.status == Status.confirmed && b.startAtUTC == start) = true := by
    rw [List.any_eq_true]
    obtain ⟨b, hb, hu, hs, hst⟩ := hex
    refine ⟨b, hb, ?_⟩
    simp only [Bool.and_eq_true, beq_iff_eq]
    exact ⟨⟨hu, hs⟩, hst⟩
  rw [if_pos h2]

/-- A booking attempt either leaves the store unchanged, or appends one
confirmed booking at an instant no confirmed booking of that user held,
under an id no booking held. -/
theorem createBooking_state {rules : List AvailabilityRule} {store : List Booking}
    {uid start endT newId : Nat} :
    (createBooking rules store uid start endT newId).2 = store ∨
    ((createBooking rules store uid start endT newId).2 =
        store ++ [⟨newId, uid, start, endT, Status.confirmed⟩] ∧
      store.any (fun b =>
        b.userId == uid && b.status == Status.confirmed && b.startAtUTC == start) = false ∧
      store.any (fun b => b.id == newId) = false) := by
  unfold createBooking
  by_cases h1 : ¬ start < endT
  · rw [if_pos h1]
    exact Or.inl rfl
  · rw [if_neg h1]
    by_cases h2 : store.any (fun b =>
        b.userId == uid && b.status == Status.confirmed && b.startAtUTC == start) = true
    · rw [if_pos h2]
      exact Or.inl rfl
    · rw [if_neg h2]
      cases hgen : generateAvailableSlots store rules uid (start - 1) (endT + 1) with
      | error e => exact Or.inl rfl
      | ok slots =>
        dsimp only
        by_cases h3 : slots.any (fun s => s.startUTC == start && s.endUTC == endT) = true
        · rw [if_pos h3]
          by_cases h4 : store.any (fun b => b.id == newId) = true
          · rw [if_pos h4]
            exact Or.inl rfl
          · rw [if_neg h4]
            exact Or.inr ⟨rfl, Bool.eq_false_iff.mpr h2, Bool.eq_false_iff.mpr h4⟩
        · rw [if_neg h3]
          exact Or.inl rfl

/-- A booking attempt preserves the per-user confirmed-start-uniqueness
invariant. -/
theorem noDoubleBook_create {rules : List AvailabilityRule} {store : List Booking}
    {uid start endT newId : Nat} (h : NoDoubleBook store) :
    NoDoubleBook (createBooking rules store uid start endT newId).2 := by
  rcases @createBooking_state rules store uid start endT newId with hst | ⟨hst, hno, -⟩
  · rw [hst]
    exact h
  · rw [hst]
    unfold NoDoubleBook at h ⊢
    rw [List.pairwise_append]
    refine ⟨h, List.pairwise_singleton _ _, ?_⟩
    intro a ha b hb
    simp only [List.mem_singleton] at hb
    subst hb
    intro h1 h2 h3 heq
    rw [List.any_eq_false] at hno
    have := hno a ha
    simp only [Bool.and_eq_true, beq_iff_eq, not_and] at this
    exact this ⟨h3, h1⟩ heq

/-- The conditional row update never changes a row's id. -/
theorem cancelUpdate_id (bid : Nat) (x : Booking) : (cancelUpdate bid x).id = x.id := by
  unfold cancelUpdate
  by_cases hc : (x.id == bid && !(x.status == Status.cancelled)) = true
  · rw [if_pos hc]
  · rw [if_neg hc]

/-- The conditional row update can only turn statuses to cancelled, and
never changes a row's user or start instant. -/
theorem cancelUpdate_facts (bid : Nat) (x : Booking) :
    ((cancelUpdate bid x).status = Status.confirmed → x.status = Status.confirmed) ∧
    (cancelUpdate bid x).userId = x.userId ∧
    (cancelUpdate bid x).startAtUTC = x.startAtUTC := by
  unfold cancelUpdate
  by_cases hc : (x.id == bid && !(x.status == Status.cancelled)) = true
  · rw [if_pos hc]
    exact ⟨fun hh => absurd hh (by simp), rfl, rfl⟩
  · rw [if_neg hc]
    exact ⟨fun hh => hh, rfl, rfl⟩

/-- A cancellation either leaves the store unchanged or applies the
conditional cancelled-status update. -/
theorem cancelBooking_state (store : List Booking) (bid : Nat) :
    (cancelBooking store bid).2 = store ∨
    (cancelBooking store bid).2 = store.map (cancelUpdate bid) := by
  unfold cancelBooking
  cases store.find? (fun b => b.id == bid) with
  | none => exact Or.inl rfl
  | some b =>
    dsimp only
    by_cases h : (b.status == Status.cancelled) = true
    · rw [if_pos h]
      exact Or.inl rfl
    · rw [if_neg h]
      by_cases h2 : (store.countP (fun x => x.id == bid && !(x.status == Status.cancelled)) == 0) = true
      · rw [if_pos h2]
        exact Or.inr rfl
      · rw [if_neg h2]
        exact Or.inr rfl

/-- A cancellation preserves the per-user confirmed-start-uniqueness
invariant: the update only ever turns statuses to cancelled. -/
theorem noDoubleBook_cancel {store : List Booking} {bid : Nat} (h : NoDoubleBook store) :
    NoDoubleBook (cancelBooking store bid).2 := by
  rcases cancelBooking_state store bid with hst | hst
  · rw [hst]
    exact h
  · rw [hst]
    unfold NoDoubleBook at h ⊢
    refine h.map _ ?_
    intro a b hab
    obtain ⟨ka, ka2, ka3⟩ := cancelUpdate_facts bid a
    obtain ⟨kb, kb2, kb3⟩ := cancelUpdate_facts bid b
    intro h1 h2 h3 heq
    rw [ka2, kb2] at h3
    rw [ka3, kb3] at heq
    exact hab (ka h1) (kb h2) h3 heq

/-- Any single request preserves the invariant. -/
theorem noDoubleBook_step {store : List Booking} (op : Op) (h : NoDoubleBook store) :
    NoDoubleBook (step store op) := by
  cases op with
  | create rules uid start endT newId => exact noDoubleBook_create h
  | cancel bid => exact noDoubleBook_cancel h

/-- C1: in every store reachable by a sequence of booking and
cancellation requests from the empty store, no two confirmed bookings of
one user share a start instant; and a well-formed booking attempt at a
`(subjectId, startAt)` already held by a confirmed booking is answered
with the slot-taken conflict and leaves the store unchanged. -/
theorem thm_C1 :
    (∀ ops : List Op, NoDoubleBook (run ops)) ∧
    (∀ (rules : List AvailabilityRule) (store : List Booking) (uid start endT newId : Nat),
        start < endT →
        (∃ b ∈ store, b.userId = uid ∧ b.status = Status.confirmed ∧ b.startAtUTC = start) →
        createBooking rules store uid start endT newId = (.slotTaken, store)) := by
  constructor
  · intro ops
    unfold run
    have hfold : ∀ (l : List Op) (st : List Booking),
        NoDoubleBook st → NoDoubleBook (l.foldl step st) := by
      intro l
      induction l with
      | nil => intro st h; exact h
      | cons o l ih =>
        intro st h
        exact ih _ (noDoubleBook_step o h)
    exact hfold ops [] List.Pairwise.nil
  · intro rules store uid start endT newId hlt hex
    exact createBooking_slotTaken hlt hex

/-- Witness for C1: with 09:00–09:30 already confirmed for user 7, a
second attempt at the same instant is answered slot-taken and the store
is unchanged. -/
theorem w_C1 :
    createBooking [⟨1, 7, 1, 540, 600, 30, true⟩] [⟨11, 7, 378000, 379800, Status.confirmed⟩]
        7 378000 379800 12 =
      (.slotTaken, [⟨11, 7, 378000, 379800, Status.confirmed⟩]) :=
  thm_C1.2 [⟨1, 7, 1, 540, 600, 30, true⟩] [⟨11, 7, 378000, 379800, Status.confirmed⟩]
    7 378000 379800 12 (by decide) (by decide)

/-- When no confirmed booking of the user sits at `start`, a candidate
matching `(start, endT)` survives the booked-start subtraction, so the
handler's availability test over the filtered slots equals the same test
over the raw candidates. -/
theorem slotMatch_filter {cands : List Slot} {store : List Booking}
    {uid fromT toT start endT : Nat}
    (hnot : ¬ ∃ b ∈ store, b.userId = uid ∧ b.status = Status.confirmed ∧ b.startAtUTC = start) :
    ((cands.filter (fun s =>
        !(((listBookingsInRange store uid fromT toT).map
          (fun b => b.startAtUTC)).contains s.startUTC))).any
      (fun s => s.startUTC == start && s.endUTC == endT)) = true ↔
      ∃ c ∈ cands, c.startUTC = start ∧ c.endUTC = endT := by
  rw [List.any_eq_true]
  constructor
  · rintro ⟨c, hc, hpred⟩
    rw [List.mem_filter] at hc
    simp only [Bool.and_eq_true, beq_iff_eq] at hpred
    exact ⟨c, hc.1, hpred⟩
  · rintro ⟨c, hc, h1, h2⟩
    refine ⟨c, ?_, by simp [h1, h2]⟩
    rw [List.mem_filter]
    refine ⟨hc, ?_⟩
    cases hcont : (((listBookingsInRange store uid fromT toT).map
        (fun b => b.startAtUTC)).contains c.startUTC) with
    | false => rfl
    | true =>
      exfalso
      rw [List.elem_iff, List.mem_map] at hcont
      obtain ⟨b, hb, hbs⟩ := hcont
      rw [mem_listBookingsInRange] at hb
      exact hnot ⟨b, hb.1, hb.2.1, hb.2.2.2.2, by omega⟩

/-- C2: for a well-formed attempt (`start < end`) with no confirmed
booking of the user at `start`, and a successful re-expansion over the
`[start-1s, end+1s]` range, the attempt is rejected slot-not-available
exactly when no re-derived candidate matches `(start, end)`; and any
attempt that creates a booking had a re-derived candidate matching its
window exactly — the re-derivation guards every insert. -/
theorem thm_C2 :
    (∀ (rules : List AvailabilityRule) (store : List Booking)
        (uid start endT newId : Nat) (cands : List Slot),
        start < endT →
        (¬ ∃ b ∈ store, b.userId = uid ∧ b.status = Status.confirmed ∧ b.startAtUTC = start) →
        generateCandidates rules (start - 1) (endT + 1) = .ok cands →
        ((createBooking rules store uid start endT newId).1 = .slotNotAvailable ↔
          ¬ ∃ c ∈ cands, c.startUTC = start ∧ c.endUTC = endT)) ∧
    (∀ (rules : List AvailabilityRule) (store : List Booking)
        (uid start endT newId : Nat) (b : Booking),
        (createBooking rules store uid start endT newId).1 = .created b →
        ∃ cands, generateCandidates rules (start - 1) (endT + 1) = .ok cands ∧
          ∃ c ∈ cands, c.startUTC = start ∧ c.endUTC = endT) := by
  constructor
  · intro rules store uid start endT newId cands hlt hnot hcands
    unfold createBooking
    rw [if_neg (not_not_intro hlt)]
    have h2 : ¬ (store.any (fun b =>
        b.userId == uid && b.status == Status.confirmed && b.startAtUTC == start)) = true := by
      rw [List.any_eq_true]
      rintro ⟨b, hb, hpred⟩
      simp only [Bool.and_eq_true, beq_iff_eq] at hpred
      exact hnot ⟨b, hb, hpred.1.1, hpred.1.2, hpred.2⟩
    rw [if_neg h2, genAvail_eq_of_ok hcands]
    dsimp only
    by_cases hmatch : ((cands.filter (fun s =>
        !(((listBookingsInRange store uid (start - 1 - 3600) (endT + 1 + 3600)).map
          (fun b => b.startAtUTC)).contains s.startUTC))).any
        (fun s => s.startUTC == start && s.endUTC == endT)) = true
    · rw [if_pos hmatch]
      have hex := (slotMatch_filter hnot).mp hmatch
      constructor
      · intro habs
        by_cases h4 : (store.any (fun b => b.id == newId)) = true
        · rw [if_pos h4] at habs
          simp at habs
        · rw [if_neg h4] at habs
          simp at habs
      · intro hnex
        exact absurd hex hnex
    · rw [if_neg hmatch]
      refine ⟨fun _ hex => hmatch ((slotMatch_filter hnot).mpr hex), fun _ => rfl⟩
  · intro rules store uid start endT newId b hres
    unfold createBooking at hres
    by_cases h1 : ¬ start < endT
    · rw [if_pos h1] at hres
      simp at hres
    · rw [if_neg h1] at hres
      by_cases h2 : (store.any (fun x =>
          x.userId == uid && x.status == Status.confirmed && x.startAtUTC == start)) = true
      · rw [if_pos h2] at hres
        simp at hres
      · rw [if_neg h2] at hres
        cases rules with
        | nil =>
          rw [show generateAvailableSlots store [] uid (start - 1) (endT + 1) = .ok [] from rfl]
            at hres
          simp at hres
        | cons a l =>
          cases hcand : generateCandidates (a :: l) (start - 1) (endT + 1) with
          | error e =>
            have herr : generateAvailableSlots store (a :: l) uid (start - 1) (endT + 1) =
                .error e := by
              unfold generateAvailableSlots
              rw [hcand]
              rfl
            rw [herr] at hres
            simp at hres
          | ok cands =>
            rw [genAvail_eq_of_ok hcand] at hres
            dsimp only at hres
            refine ⟨cands, rfl, ?_⟩
            by_cases hmatch : ((cands.filter (fun s =>
                !(((listBookingsInRange store uid (start - 1 - 3600) (endT + 1 + 3600)).map
                  (fun x => x.startAtUTC)).contains s.startUTC))).any
                (fun s => s.startUTC == start && s.endUTC == endT)) = true
            · rw [List.any_eq_true] at hmatch
              obtain ⟨c, hc, hpred⟩ := hmatch
              rw [List.mem_filter] at hc
              simp only [Bool.and_eq_true, beq_iff_eq] at hpred
              exact ⟨c, hc.1, hpred⟩
            · rw [if_neg hmatch] at hres
              simp at hres

/-- Witness for C2's equivalence: user 7, Monday 09:00–10:00 rule,
empty store — the attempt at the aligned slot 09:00–09:30 is not
rejected slot-not-available because a re-derived candidate matches. -/
theorem w_C2 :
    (createBooking [⟨1, 7, 1, 540, 600, 30, true⟩] [] 7 378000 379800 11).1 =
        CreateResult.slotNotAvailable ↔
      ¬ ∃ c ∈ ([⟨378000, 379800⟩, ⟨379800, 381600⟩] : List Slot),
        c.startUTC = 378000 ∧ c.endUTC = 379800 :=
  thm_C2.1 [⟨1, 7, 1, 540, 600, 30, true⟩] [] 7 378000 379800 11
    [⟨378000, 379800⟩, ⟨379800, 381600⟩] (by decide) (by decide) rfl

/-! ## Cancellation -/

/-- Cancelling an id held by no booking answers 404 and changes
nothing. -/
theorem cancel_notFound {store : List Booking} {bid : Nat}
    (h : ¬ ∃ b ∈ store, b.id = bid) :
    cancelBooking store bid = (.notFound, store) := by
  unfold cancelBooking
  have hf : store.find? (fun b => b.id == bid) = none := by
    rw [List.find?_eq_none]
    intro x hx hpred
    exact h ⟨x, hx, by simpa using hpred⟩
  rw [hf]

/-- Cancelling an id whose booking is already cancelled answers the 409
conflict and changes nothing. -/
theorem cancel_already {store : List Booking} {bid : Nat}
    (hex : ∃ b ∈ store, b.id = bid)
    (hall : ∀ b ∈ store, b.id = bid → b.status = Status.cancelled) :
    cancelBooking store bid = (.alreadyCancelled, store) := by
  unfold cancelBooking
  obtain ⟨b0, hb0, hid⟩ := hex
  have hsome : (store.find? (fun b => b.id == bid)).isSome :=
    List.find?_isSome.mpr ⟨b0, hb0, by simp [hid]⟩
  obtain ⟨b1, hb1⟩ := Option.isSome_iff_exists.mp hsome
  rw [hb1]
  dsimp only
  have hmem := List.mem_of_find?_eq_some hb1
  have hpred := List.find?_some hb1
  have hcanc : b1.status = Status.cancelled := hall b1 hmem (by simpa using hpred)
  rw [if_pos (by simp [hcanc])]

/-- Cancelling an id whose bookings are all confirmed succeeds and
applies the conditional update. -/
theorem cancel_confirmed {store : List Booking} {bid : Nat}
    (hex : ∃ b ∈ store, b.id = bid)
    (hall : ∀ b ∈ store, b.id = bid → b.status = Status.confirmed) :
    cancelBooking store bid = (.ok, store.map (cancelUpdate bid)) := by
  unfold cancelBooking
  obtain ⟨b0, hb0, hid⟩ := hex
  have hsome : (store.find? (fun b => b.id == bid)).isSome :=
    List.find?_isSome.mpr ⟨b0, hb0, by simp [hid]⟩
  obtain ⟨b1, hb1⟩ := Option.isSome_iff_exists.mp hsome
  rw [hb1]
  dsimp only
  have hmem := List.mem_of_find?_eq_some hb1
  have hpred := List.find?_some hb1
  have hconf : b1.status = Status.confirmed := hall b1 hmem (by simpa using hpred)
  rw [if_neg (by simp [hconf])]
  have hcount : 0 < store.countP (fun x => x.id == bid && !(x.status == Status.cancelled)) := by
    rw [List.countP_pos_iff]
    exact ⟨b0, hb0, by simp [hid, hall b0 hb0 hid]⟩
  rw [if_neg (by simp only [beq_iff_eq]; omega)]

/-- After the conditional update, every booking under the cancelled id
is cancelled. -/
theorem cancelUpdate_all_cancelled {store : List Booking} {bid : Nat} :
    ∀ b ∈ store.map (cancelUpdate bid), b.id = bid → b.status = Status.cancelled := by
  intro b hb hbid
  rw [List.mem_map] at hb
  obtain ⟨x, hx, hfx⟩ := hb
  subst hfx
  unfold cancelUpdate at hbid ⊢
  by_cases hc : (x.id == bid && !(x.status == Status.cancelled)) = true
  · rw [if_pos hc]
  · rw [if_neg hc] at hbid ⊢
    simp only [Bool.and_eq_true, Bool.not_eq_true', beq_iff_eq, not_and] at hc
    have := hc hbid
    simpa using this

/-- The conditional update keeps every id present. -/
theorem cancelUpdate_keeps_id {store : List Booking} {bid k : Nat}
    (hex : ∃ b ∈ store, b.id = k) :
    ∃ b ∈ store.map (cancelUpdate bid), b.id = k := by
  obtain ⟨b, hb, hid⟩ := hex
  exact ⟨cancelUpdate bid b, List.mem_map_of_mem _ hb, by rw [cancelUpdate_id, hid]⟩

/-- C8: cancelling an unknown id answers 404 not-found; cancelling a
confirmed booking succeeds, leaves every booking under that id
cancelled, and a second cancel of the same id answers the 409 conflict
(already cancelled) — so two cancels yield exactly one success and one
conflict; cancelling an already-cancelled id answers the conflict and
changes nothing; the conflict's HTTP status differs from not-found's, so
callers can tell "never existed" from "already done"; and once a
booking id is cancelled, no request — booking attempt or cancellation —
ever makes it confirmed again. -/
theorem thm_C8 :
    (∀ (store : List Booking) (bid : Nat),
        (¬ ∃ b ∈ store, b.id = bid) → cancelBooking store bid = (.notFound, store)) ∧
    (∀ (store : List Booking) (bid : Nat),
        (∃ b ∈ store, b.id = bid) →
        (∀ b ∈ store, b.id = bid → b.status = Status.confirmed) →
        (cancelBooking store bid).1 = .ok ∧
        (∀ b ∈ (cancelBooking store bid).2, b.id = bid → b.status = Status.cancelled) ∧
        (cancelBooking (cancelBooking store bid).2 bid).1 = .alreadyCancelled) ∧
    (∀ (store : List Booking) (bid : Nat),
        (∃ b ∈ store, b.id = bid) →
        (∀ b ∈ store, b.id = bid → b.status = Status.cancelled) →
        cancelBooking store bid = (.alreadyCancelled, store)) ∧
    CancelResult.alreadyCancelled.httpStatus ≠ CancelResult.notFound.httpStatus ∧
    (∀ (store : List Booking) (op : Op) (bid : Nat),
        (∃ b ∈ store, b.id = bid) →
        (∀ b ∈ store, b.id = bid → b.status = Status.cancelled) →
        (∃ b ∈ step store op, b.id = bid) ∧
        (∀ b ∈ step store op, b.id = bid → b.status = Status.cancelled)) := by
  refine ⟨fun store bid h => cancel_notFound h, ?_, fun store bid hex hall => cancel_already hex hall,
    by decide, ?_⟩
  · intro store bid hex hall
    rw [cancel_confirmed hex hall]
    refine ⟨rfl, cancelUpdate_all_cancelled, ?_⟩
    rw [cancel_already (cancelUpdate_keeps_id hex) cancelUpdate_all_cancelled]
  · intro store op bid hex hall
    cases op with
    | cancel bid2 =>
      have hstep : step store (Op.cancel bid2) = (cancelBooking store bid2).2 := rfl
      rw [hstep]
      rcases cancelBooking_state store bid2 with hst | hst
      · rw [hst]
        exact ⟨hex, hall⟩
      · rw [hst]
        refine ⟨cancelUpdate_keeps_id hex, ?_⟩
        intro b hb hbid
        rw [List.mem_map] at hb
        obtain ⟨x, hx, hfx⟩ := hb
        subst hfx
        rw [cancelUpdate_id] at hbid
        have hxc := hall x hx hbid
        unfold cancelUpdate
        rw [if_neg (by simp [hxc])]
        exact hxc
    | create rules uid start endT newId =>
      have hstep : step store (Op.create rules uid start endT newId) =
          (createBooking rules store uid start endT newId).2 := rfl
      rw [hstep]
      rcases @createBooking_state rules store uid start endT newId with hst | ⟨hst, -, hnoid⟩
      · rw [hst]
        exact ⟨hex, hall⟩
      · rw [hst]
        constructor
        · obtain ⟨b, hb, hid⟩ := hex
          exact ⟨b, List.mem_append_left _ hb, hid⟩
        · intro b hb hbid
          rcases List.mem_append.mp hb with hb | hb
          · exact hall b hb hbid
          · simp only [List.mem_singleton] at hb
            subst hb
            exfalso
            rw [List.any_eq_false] at hnoid
            obtain ⟨b0, hb0, hid0⟩ := hex
            have hnb : newId = bid := hbid
            exact hnoid b0 hb0 (by simp only [beq_iff_eq]; omega)

/-- Witness for C8: the three response shapes on a one-booking store —
unknown id is 404, cancelling the confirmed booking succeeds and leaves
it cancelled, cancelling it again is the 409 conflict. -/
theorem w_C8 :
    cancelBooking [⟨11, 7, 378000, 379800, Status.confirmed⟩] 99 =
      (.notFound, [⟨11, 7, 378000, 379800, Status.confirmed⟩]) ∧
    (cancelBooking [⟨11, 7, 378000, 379800, Status.confirmed⟩] 11).1 = .ok ∧
    (cancelBooking (cancelBooking [⟨11, 7, 378000, 379800, Status.confirmed⟩] 11).2 11).1 =
      .alreadyCancelled :=
  ⟨thm_C8.1 [⟨11, 7, 378000, 379800, Status.confirmed⟩] 99 (by decide),
    (thm_C8.2.1 [⟨11, 7, 378000, 379800, Status.confirmed⟩] 11 (by decide) (by decide)).1,
    (thm_C8.2.1 [⟨11, 7, 378000, 379800, Status.confirmed⟩] 11 (by decide) (by decide)).2.2⟩

/-! ## Rule insertion and booking listing -/

/-- C9: the current `InsertAvailabilityRule` performs no duplicate-day
check — inserting a second rule with the same `dayOfWeek` as an existing
rule of the same subject succeeds (the dropped `uniq_user_day`
constraint permits overlapping rules), and in particular never fails
with an already-exists error. -/
theorem thm_C9 :
    ∀ (store : List AvailabilityRule) (r : AvailabilityRule),
      (∃ r0 ∈ store, r0.userId = r.userId ∧ r0.dayOfWeek = r.dayOfWeek) →
      insertAvailabilityRule store r = .ok (store ++ [r]) :=
  fun _ _ _ => rfl

/-- Witness for C9: a second Monday rule for user 7 is accepted. -/
theorem w_C9 :
    insertAvailabilityRule [⟨1, 7, 1, 540, 600, 30, true⟩] ⟨2, 7, 1, 540, 600, 30, true⟩ =
      .ok [⟨1, 7, 1, 540, 600, 30, true⟩, ⟨2, 7, 1, 540, 600, 30, true⟩] :=
  thm_C9 [⟨1, 7, 1, 540, 600, 30, true⟩] ⟨2, 7, 1, 540, 600, 30, true⟩ (by decide)

/-- C10: when exactly one of the `from`/`to` query parameters is
supplied to the booking-listing handler, it is silently ignored: no
`from < to` validation runs, and the answer is the unfiltered
all-bookings query, identical to supplying neither parameter — for
every store and every value of the lone parameter. -/
theorem thm_C10 :
    ∀ (store : List Booking) (uid f t : Nat),
      listBookingsHandler store uid (some f) none = .ok (listBookings store uid 0 0 false) ∧
      listBookingsHandler store uid none (some t) = .ok (listBookings store uid 0 0 false) ∧
      listBookingsHandler store uid (some f) none = listBookingsHandler store uid none none ∧
      listBookingsHandler store uid none (some t) = listBookingsHandler store uid none none :=
  fun _ _ _ _ => ⟨rfl, rfl, rfl, rfl⟩

end Sched
